import Mathlib

/-!
Verification development for the ai-chat repository.

Part 1 embeds the model/provider configuration from
`src/lib/ai/providers.ts` (the `myProvider` definition and the
`DEFAULT_CHAT_MODEL` / `chatModels` definitions appended to it).

Part 2 models the resumable-stream coordination layer (Durable Stream
Store, Stream Registry, Generation Producer, Resumable Transport).  The
implementation of that layer is not present under `src/` (the repository
documentation only points at `/api/chat`, the `resumable-stream` library
and Redis), so every definition in Part 2 is modelled from the spec, as
indicated by its doc comment.
-/

namespace AIChat

/-- A language model value registered with `customProvider`.  In the test
environment the four models come from `models.mock`; in production they are
`groq(...)` models identified by their Groq model name. -/
inductive LanguageModel
  | mock (name : String)
  | groq (modelName : String)
  deriving DecidableEq

/-- The `languageModels` record of the test-environment branch of
`myProvider` in `src/lib/ai/providers.ts`, as an association list in source
order. -/
def mockLanguageModels : List (String × LanguageModel) :=
  [("chat-model", .mock "chatModel"),
   ("chat-model-reasoning", .mock "reasoningModel"),
   ("title-model", .mock "titleModel"),
   ("artifact-model", .mock "artifactModel")]

/-- The `languageModels` record of the production branch of `myProvider`
in `src/lib/ai/providers.ts`, as an association list in source order. -/
def groqLanguageModels : List (String × LanguageModel) :=
  [("chat-model", .groq "llama-3.3-70b-versatile"),
   ("chat-model-reasoning", .groq "llama-3.1-70b-versatile"),
   ("title-model", .groq "llama-3.1-8b-instant"),
   ("artifact-model", .groq "llama-3.3-70b-versatile")]

/-- The `myProvider` export of `src/lib/ai/providers.ts`: the registered
language models as a function of `isTestEnvironment`. -/
def myProvider (isTestEnvironment : Bool) : List (String × LanguageModel) :=
  if isTestEnvironment then mockLanguageModels else groqLanguageModels

/-- The ids under which `myProvider` registers language models. -/
def languageModelIds (isTestEnvironment : Bool) : List String :=
  (myProvider isTestEnvironment).map Prod.fst

/-- The `DEFAULT_CHAT_MODEL` export of `src/lib/ai/providers.ts`. -/
def DEFAULT_CHAT_MODEL : String := "chat-model"

/-- The `ChatModel` type of `src/lib/ai/providers.ts`. -/
structure ChatModel where
  id : String
  name : String
  description : String
  deriving DecidableEq

/-- The `chatModels` export of `src/lib/ai/providers.ts`, in source order. -/
def chatModels : List ChatModel :=
  [{ id := "chat-model",
     name := "Llama 3.3 70B",
     description := "Powerful open-source model with excellent quality (FREE)" },
   { id := "chat-model-reasoning",
     name := "Llama 3.1 70B",
     description := "Enhanced reasoning capabilities for complex problems (FREE)" }]

/-- C9: the test-environment branch and the production branch of
`myProvider` register language models under exactly the same four ids
("chat-model", "chat-model-reasoning", "title-model", "artifact-model"),
so the list of available model ids does not depend on
`isTestEnvironment`. -/
theorem provider_ids_independent_of_environment :
    languageModelIds true = languageModelIds false ∧
    languageModelIds true =
      ["chat-model", "chat-model-reasoning", "title-model", "artifact-model"] ∧
    ∀ b : Bool, languageModelIds b =
      ["chat-model", "chat-model-reasoning", "title-model", "artifact-model"] := by
  refine ⟨rfl, rfl, ?_⟩
  intro b
  cases b <;> rfl

/-- C10: `DEFAULT_CHAT_MODEL` is "chat-model", the id of the first element
of `chatModels`; the ids of `chatModels` are pairwise distinct; and in both
environments the selectable chat-model ids are exactly the provider's
language-model ids with "title-model" and "artifact-model" excluded (in
particular a subset of the provider's ids). -/
theorem default_chat_model_consistent :
    DEFAULT_CHAT_MODEL = "chat-model" ∧
    (chatModels.map ChatModel.id).head? = some DEFAULT_CHAT_MODEL ∧
    (chatModels.map ChatModel.id).Nodup ∧
    chatModels.map ChatModel.id =
      (languageModelIds true).filter
        (fun i => decide (i ≠ "title-model" ∧ i ≠ "artifact-model")) ∧
    chatModels.map ChatModel.id =
      (languageModelIds false).filter
        (fun i => decide (i ≠ "title-model" ∧ i ≠ "artifact-model")) := by
  refine ⟨rfl, rfl, ?_, by decide, by decide⟩
  decide

/-- Modelled from the spec: the closed tagged-variant type of chunk/event
kinds (§9: "text-delta, tool-call, tool-result, reasoning-delta, usage,
error, finish").  The implementation of the chunk vocabulary is not under
`src/`. -/
inductive ChunkKind
  | textDelta
  | toolCall
  | toolResult
  | reasoningDelta
  | usage
  | error
  | finish
  deriving DecidableEq

/-- Modelled from the spec: a terminal chunk is "the chunk type signaling a
Stream's end (success or error)" — here the `finish` and `error` kinds. -/
def ChunkKind.isTerminal : ChunkKind → Bool
  | .error => true
  | .finish => true
  | _ => false

/-- Modelled from the spec: the canonical chunk record
`{streamId, sequence, payload, timestamp}` of §4.1, extended with the kind
tag of §9.  The producer code writing these records is not under `src/`. -/
structure Chunk where
  streamId : Nat
  sequence : Nat
  kind : ChunkKind
  payload : String
  timestamp : Nat
  deriving DecidableEq

/-- Modelled from the spec: the terminal status of a Stream
(`running | completed | aborted`, §3). -/
inductive StreamStatus
  | running
  | completed
  | aborted
  deriving DecidableEq

/-- Modelled from the spec: one Stream record together with its slice of
the Durable Stream Store.  `chunks` is the append-ordered chunk log kept by
the store for this stream id; `evictedBefore` is the retention watermark:
chunks with sequence number below it have been evicted by the store's
finite retention (§4.2, §4.3).  The registry/store implementation is not
under `src/`. -/
structure StreamRec where
  id : Nat
  conversationId : Nat
  status : StreamStatus
  chunks : List Chunk
  evictedBefore : Nat
  deriving DecidableEq

/-- Modelled from the spec: the server-side state of the coordination
layer — the Stream Registry (all streams in creation order) plus the
Durable Stream Store contents carried inside each `StreamRec`.  `now` is a
logical clock used to stamp chunks. -/
structure SystemState where
  streams : List StreamRec
  nextStreamId : Nat
  now : Nat
  deriving DecidableEq

/-- The initial state: no stream was ever registered. -/
def initState : SystemState :=
  { streams := [], nextStreamId := 0, now := 0 }

/-- Modelled from the spec: store lookup of a stream by id. -/
def findStream (s : SystemState) (sid : Nat) : Option StreamRec :=
  s.streams.find? (fun st => decide (st.id = sid))

/-- Modelled from the spec: `listStreamIds(conversationId)` — the streams
recorded for a conversation, in creation order (§4.2). -/
def streamsFor (s : SystemState) (cid : Nat) : List StreamRec :=
  s.streams.filter (fun st => decide (st.conversationId = cid))

/-- Modelled from the spec: `latestStreamId(conversationId)` — "the most
recent Stream is the one eligible for resume" (§3). -/
def latestStreamFor (s : SystemState) (cid : Nat) : Option StreamRec :=
  (streamsFor s cid).getLast?

/-- Whether some stream of the conversation currently has status
`running`. -/
def hasRunning (s : SystemState) (cid : Nat) : Bool :=
  s.streams.any
    (fun st => decide (st.conversationId = cid ∧ st.status = .running))

/-- Modelled from the spec: the error taxonomy of §7 that the coordination
layer itself raises (`ConflictError` on double registration, `GoneError` on
resume past retention). -/
inductive CoreError
  | conflictError
  | goneError
  deriving DecidableEq

/-- Modelled from the spec: `registerStream(conversationId) -> streamId`
(§4.2): creates and records a new running Stream, failing with a
`ConflictError` while one is already running for the conversation. -/
def registerStream (s : SystemState) (cid : Nat) :
    Except CoreError (SystemState × Nat) :=
  if hasRunning s cid then
    .error .conflictError
  else
    .ok ({ streams := s.streams ++
             [{ id := s.nextStreamId, conversationId := cid,
                status := .running, chunks := [], evictedBefore := 0 }],
           nextStreamId := s.nextStreamId + 1,
           now := s.now + 1 },
         s.nextStreamId)

/-- Helper: rewrite the stream with the given id in place, advancing the
logical clock. -/
def updateStream (s : SystemState) (sid : Nat) (f : StreamRec → StreamRec) :
    SystemState :=
  { s with
    streams := s.streams.map (fun st => if st.id = sid then f st else st),
    now := s.now + 1 }

/-- Modelled from the spec: the canonical chunk record built by the
producer for the next event (§4.1). -/
def mkChunk (sid seq : Nat) (k : ChunkKind) (payload : String) (t : Nat) :
    Chunk :=
  { streamId := sid, sequence := seq, kind := k, payload := payload,
    timestamp := t }

/-- Modelled from the spec: the producer appends one non-terminal event
chunk to the Durable Stream Store under its stream id, sequencing it right
after the chunks already written (§4.1, §5).  Appending is only valid on a
running stream. -/
def appendChunk (s : SystemState) (sid : Nat) (k : ChunkKind)
    (payload : String) : Option SystemState :=
  match findStream s sid with
  | none => none
  | some st =>
    if st.status = .running ∧ k.isTerminal = false then
      some (updateStream s sid (fun st' =>
        { st' with chunks := st'.chunks ++
            [mkChunk sid st'.chunks.length k payload s.now] }))
    else none

/-- Modelled from the spec: on the terminal finish signal the producer
writes the terminal `finish` chunk and updates the Stream status to
`completed` (§4.1). -/
def finishStream (s : SystemState) (sid : Nat) : Option SystemState :=
  match findStream s sid with
  | none => none
  | some st =>
    if st.status = .running then
      some (updateStream s sid (fun st' =>
        { st' with status := .completed,
                   chunks := st'.chunks ++
                     [mkChunk sid st'.chunks.length .finish "" s.now] }))
    else none

/-- Modelled from the spec: on producer failure the producer marks the
Stream `aborted` and writes a terminal error chunk so any consumer observes
a deterministic end (§4.1); no retry is started. -/
def abortStream (s : SystemState) (sid : Nat) (reason : String) :
    Option SystemState :=
  match findStream s sid with
  | none => none
  | some st =>
    if st.status = .running then
      some (updateStream s sid (fun st' =>
        { st' with status := .aborted,
                   chunks := st'.chunks ++
                     [mkChunk sid st'.chunks.length .error reason s.now] }))
    else none

/-- Modelled from the spec: retention eviction by the Durable Stream Store
(§4.2, §6): the store may advance the retention watermark, evicting early
chunks. -/
def evictChunks (s : SystemState) (sid : Nat) (upTo : Nat) : SystemState :=
  updateStream s sid (fun st' =>
    { st' with evictedBefore := max st'.evictedBefore upTo })

/-- The first sequence number a resume call asks for: `lastSeenSequence + 1`,
or the start of the stream when unspecified (§4.3). -/
def resumeFromSeq (lastSeen : Option Nat) : Nat :=
  match lastSeen with
  | none => 0
  | some k => k + 1

/-- The chunks the Durable Stream Store replays from a given sequence
number on. -/
def replayChunks (st : StreamRec) (fromSeq : Nat) : List Chunk :=
  st.chunks.filter (fun c => decide (fromSeq ≤ c.sequence))

/-- Modelled from the spec: `resume(conversationId, lastSeenSequence?)`
(§4.3): looks up the latest Stream via the registry; with no Stream, or a
latest Stream already `completed`/`aborted`, returns an empty/terminal
stream; on a running Stream it fails with a `GoneError` when the store has
evicted part of the requested range, and otherwise replays all stored
chunks starting at `lastSeenSequence + 1` (or the start). -/
def resume (s : SystemState) (cid : Nat) (lastSeen : Option Nat) :
    Except CoreError (List Chunk) :=
  match latestStreamFor s cid with
  | none => .ok []
  | some st =>
    if st.status = .completed ∨ st.status = .aborted then
      .ok []
    else
      if resumeFromSeq lastSeen < st.evictedBefore then
        .error .goneError
      else
        .ok (replayChunks st (resumeFromSeq lastSeen))

/-- Modelled from the spec: the operations that change the server-side
state (§4.1, §4.2, §6): stream registration, producer appends, the two
terminal transitions, and retention eviction by the store.  Resume and
replay are read-only and are not steps. -/
inductive Op
  | register (cid : Nat)
  | append (sid : Nat) (k : ChunkKind) (payload : String)
  | finish (sid : Nat)
  | abort (sid : Nat) (reason : String)
  | evict (sid : Nat) (upTo : Nat)

/-- One state-changing step of the coordination layer; `none` when the
operation is rejected. -/
def applyOp (s : SystemState) : Op → Option SystemState
  | .register cid =>
    match registerStream s cid with
    | .ok (s', _) => some s'
    | .error _ => none
  | .append sid k payload => appendChunk s sid k payload
  | .finish sid => finishStream s sid
  | .abort sid reason => abortStream s sid reason
  | .evict sid upTo => some (evictChunks s sid upTo)

/-- The states reachable from the initial state by accepted operations. -/
inductive Reachable : SystemState → Prop
  | init : Reachable initState
  | step {s : SystemState} (op : Op) {s' : SystemState} :
      Reachable s → applyOp s op = some s' → Reachable s'

/-- Multi-step evolution of the system between two states. -/
def Steps (s s' : SystemState) : Prop :=
  Relation.ReflTransGen (fun a b => ∃ op, applyOp a op = some b) s s'

/-- What a consumer attached to stream `sid` reads, when it starts reading
at sequence number `fromSeq` in state `s` (replay of the stored chunks from
`fromSeq` on) and then stays attached while the system evolves to state
`s'` (live delivery of every chunk appended in between).  A live consumer
attached from the start is the case `fromSeq = 0`; a consumer resuming with
`lastSeenSequence = k` is the case `fromSeq = k + 1`. -/
def consumerDelivered (s s' : SystemState) (sid fromSeq : Nat) : List Chunk :=
  match findStream s sid, findStream s' sid with
  | some st, some st' =>
    replayChunks st fromSeq ++ st'.chunks.drop st.chunks.length
  | _, _ => []

/-- Helper: the last element of a list is a member. -/
theorem mem_of_getLast?_eq_some {α : Type} {l : List α} {a : α}
    (h : l.getLast? = some a) : a ∈ l := by
  rw [List.getLast?_eq_some_iff] at h
  obtain ⟨ys, rfl⟩ := h
  simp

/-- Sequence numbers of a chunk log are zero-based and dense: the n-th
chunk written carries sequence number n. -/
def seqWellFormed (st : StreamRec) : Prop :=
  st.chunks.map Chunk.sequence = List.range st.chunks.length

/-- A running stream contains no terminal chunk yet. -/
def runningNoTerminal (st : StreamRec) : Prop :=
  st.status = .running → ∀ c ∈ st.chunks, c.kind.isTerminal = false

/-- The filter predicate for "running stream of this conversation". -/
def runningFor (cid : Nat) (st : StreamRec) : Bool :=
  decide (st.conversationId = cid ∧ st.status = .running)

/-- The state invariant maintained by every accepted operation: stream ids
are below the id counter and pairwise distinct, every chunk log is densely
sequenced from 0, running streams hold no terminal chunk, and each
conversation has at most one running stream. -/
def Inv (s : SystemState) : Prop :=
  (∀ st ∈ s.streams, st.id < s.nextStreamId) ∧
  (s.streams.map StreamRec.id).Nodup ∧
  (∀ st ∈ s.streams, seqWellFormed st) ∧
  (∀ st ∈ s.streams, runningNoTerminal st) ∧
  (∀ cid, (s.streams.filter (runningFor cid)).length ≤ 1)

/-- The initial state satisfies the invariant. -/
theorem inv_initState : Inv initState := by
  refine ⟨?_, ?_, ?_, ?_, ?_⟩ <;> simp [initState]

/-- Updating one stream in place preserves the invariant, provided the
update keeps the id and the conversation, preserves well-formed sequencing
and the no-terminal-while-running property, and never turns a non-running
stream into a running one. -/
theorem inv_updateStream (s : SystemState) (sid : Nat)
    (f : StreamRec → StreamRec)
    (hid : ∀ st, (f st).id = st.id)
    (hcid : ∀ st, (f st).conversationId = st.conversationId)
    (hseq : ∀ st ∈ s.streams, seqWellFormed st → seqWellFormed (f st))
    (hterm : ∀ st ∈ s.streams, runningNoTerminal st → runningNoTerminal (f st))
    (hrun : ∀ st, (f st).status = .running → st.status = .running)
    (hinv : Inv s) : Inv (updateStream s sid f) := by
  obtain ⟨h1, h2, h3, h4, h5⟩ := hinv
  have hgid : ∀ st : StreamRec,
      ((if st.id = sid then f st else st) : StreamRec).id = st.id := by
    intro st
    by_cases h : st.id = sid <;> simp [h, hid]
  have hmapid :
      ((s.streams.map (fun st => if st.id = sid then f st else st)).map
        StreamRec.id) = s.streams.map StreamRec.id := by
    rw [List.map_map]
    exact List.map_congr_left (fun a _ => hgid a)
  refine ⟨?_, ?_, ?_, ?_, ?_⟩
  · intro st hst
    simp only [updateStream] at hst ⊢
    obtain ⟨y, hy, rfl⟩ := List.mem_map.1 hst
    rw [hgid]
    exact h1 y hy
  · simpa only [updateStream, hmapid] using h2
  · intro st hst
    simp only [updateStream] at hst
    obtain ⟨y, hy, rfl⟩ := List.mem_map.1 hst
    by_cases h : y.id = sid
    · simpa [h] using hseq y hy (h3 y hy)
    · simpa [h] using h3 y hy
  · intro st hst
    simp only [updateStream] at hst
    obtain ⟨y, hy, rfl⟩ := List.mem_map.1 hst
    by_cases h : y.id = sid
    · simpa [h] using hterm y hy (h4 y hy)
    · simpa [h] using h4 y hy
  · intro cid
    simp only [updateStream]
    rw [← List.countP_eq_length_filter, List.countP_map]
    have h5' := h5 cid
    rw [← List.countP_eq_length_filter] at h5'
    refine le_trans (List.countP_mono_left ?_) h5'
    intro x _ hx
    simp only [Function.comp] at hx
    by_cases h : x.id = sid
    · simp only [h, if_pos] at hx
      simp only [runningFor, decide_eq_true_eq] at hx ⊢
      exact ⟨by rw [← hcid x]; exact hx.1, hrun x hx.2⟩
    · simpa [h] using hx

/-- Registration preserves the invariant. -/
theorem inv_registerStream (s : SystemState) (cid : Nat) (s' : SystemState)
    (sid : Nat) (hinv : Inv s) (h : registerStream s cid = .ok (s', sid)) :
    Inv s' := by
  obtain ⟨h1, h2, h3, h4, h5⟩ := hinv
  unfold registerStream at h
  by_cases hR : hasRunning s cid
  · simp [hR] at h
  · simp only [hR, if_neg, Bool.false_eq_true, not_false_iff] at h
    cases h
    refine ⟨?_, ?_, ?_, ?_, ?_⟩
    · intro st hst
      simp only [List.mem_append, List.mem_singleton] at hst
      rcases hst with hst | rfl
      · exact Nat.lt_succ_of_lt (h1 st hst)
      · exact Nat.lt_succ_self _
    · rw [List.map_append, List.nodup_append]
      refine ⟨h2, by simp, ?_⟩
      intro a ha
      simp only [List.mem_map] at ha
      obtain ⟨y, hy, rfl⟩ := ha
      simp only [List.map_cons, List.map_nil, List.mem_singleton]
      exact fun hcon => absurd (hcon ▸ h1 y hy) (lt_irrefl _)
    · intro st hst
      simp only [List.mem_append, List.mem_singleton] at hst
      rcases hst with hst | rfl
      · exact h3 st hst
      · simp [seqWellFormed]
    · intro st hst
      simp only [List.mem_append, List.mem_singleton] at hst
      rcases hst with hst | rfl
      · exact h4 st hst
      · intro _ c hc
        simp at hc
    · intro cid'
      rw [List.filter_append]
      have hnil : s.streams.filter (runningFor cid) = [] := by
        rw [List.filter_eq_nil_iff]
        intro a ha
        have := List.any_eq_false.1 (Bool.eq_false_iff.2 hR) a ha
        simpa [runningFor] using this
      by_cases hc : cid' = cid
      · subst hc
        rw [hnil]
        simp [runningFor]
      · have : runningFor cid'
            ({ id := s.nextStreamId, conversationId := cid,
               status := .running, chunks := [], evictedBefore := 0 } :
              StreamRec) = false := by
          simp [runningFor]
          intro hcc
          exact absurd hcc.symm hc
        rw [List.filter_cons, this]
        simpa using h5 cid'

/-- Appending a live chunk preserves the invariant. -/
theorem inv_appendChunk (s : SystemState) (sid : Nat) (k : ChunkKind)
    (payload : String) (s' : SystemState) (hinv : Inv s)
    (h : appendChunk s sid k payload = some s') : Inv s' := by
  unfold appendChunk at h
  split at h
  · exact absurd h (by simp)
  · rename_i st hfind
    split at h
    · rename_i hguard
      obtain rfl := Option.some.inj h
      refine inv_updateStream s sid _ (by intro st'; rfl) (by intro st'; rfl)
        ?_ ?_ (by intro st' hst'; exact hst') hinv
      · intro st' _ hwf
        simp only [seqWellFormed] at hwf ⊢
        simp [List.map_append, hwf, mkChunk, List.range_succ]
      · intro st' _ hnt hrunning c hc
        simp only [List.mem_append, List.mem_singleton] at hc
        rcases hc with hc | rfl
        · exact hnt hrunning c hc
        · simpa [mkChunk] using hguard.2
    · exact absurd h (by simp)

/-- Completing a stream preserves the invariant. -/
theorem inv_finishStream (s : SystemState) (sid : Nat) (s' : SystemState)
    (hinv : Inv s) (h : finishStream s sid = some s') : Inv s' := by
  unfold finishStream at h
  split at h
  · exact absurd h (by simp)
  · rename_i st hfind
    split at h
    · obtain rfl := Option.some.inj h
      refine inv_updateStream s sid _ (by intro st'; rfl) (by intro st'; rfl)
        ?_ ?_ ?_ hinv
      · intro st' _ hwf
        simp only [seqWellFormed] at hwf ⊢
        simp [List.map_append, hwf, mkChunk, List.range_succ]
      · intro st' _ _ hrunning
        exact absurd hrunning (by simp)
      · intro st' hrunning
        exact absurd hrunning (by simp)
    · exact absurd h (by simp)

/-- Aborting a stream preserves the invariant. -/
theorem inv_abortStream (s : SystemState) (sid : Nat) (reason : String)
    (s' : SystemState) (hinv : Inv s) (h : abortStream s sid reason = some s') :
    Inv s' := by
  unfold abortStream at h
  split at h
  · exact absurd h (by simp)
  · rename_i st hfind
    split at h
    · obtain rfl := Option.some.inj h
      refine inv_updateStream s sid _ (by intro st'; rfl) (by intro st'; rfl)
        ?_ ?_ ?_ hinv
      · intro st' _ hwf
        simp only [seqWellFormed] at hwf ⊢
        simp [List.map_append, hwf, mkChunk, List.range_succ]
      · intro st' _ _ hrunning
        exact absurd hrunning (by simp)
      · intro st' hrunning
        exact absurd hrunning (by simp)
    · exact absurd h (by simp)

/-- Retention eviction preserves the invariant. -/
theorem inv_evictChunks (s : SystemState) (sid upTo : Nat) (hinv : Inv s) :
    Inv (evictChunks s sid upTo) := by
  refine inv_updateStream s sid _ (by intro st'; rfl) (by intro st'; rfl)
    ?_ ?_ (by intro st' hst'; exact hst') hinv
  · intro st' _ hwf
    exact hwf
  · intro st' _ hnt
    exact hnt

/-- Every accepted operation preserves the invariant. -/
theorem inv_applyOp (s : SystemState) (op : Op) (s' : SystemState)
    (hinv : Inv s) (h : applyOp s op = some s') : Inv s' := by
  cases op with
  | register cid =>
    simp only [applyOp] at h
    split at h
    · rename_i s1 n1 hreg
      obtain rfl := Option.some.inj h
      exact inv_registerStream s cid s1 n1 hinv hreg
    · exact absurd h (by simp)
  | append sid k payload => exact inv_appendChunk s sid k payload s' hinv h
  | finish sid => exact inv_finishStream s sid s' hinv h
  | abort sid reason => exact inv_abortStream s sid reason s' hinv h
  | evict sid upTo =>
    obtain rfl := Option.some.inj h
    exact inv_evictChunks s sid upTo hinv

/-- Every reachable state satisfies the invariant. -/
theorem reachable_inv (s : SystemState) (h : Reachable s) : Inv s := by
  induction h with
  | init => exact inv_initState
  | step op _ hstep ih => exact inv_applyOp _ op _ ih hstep

/-- Multi-step evolution out of a reachable state stays reachable. -/
theorem steps_reachable (s s' : SystemState) (hr : Reachable s)
    (h : Steps s s') : Reachable s' := by
  induction h with
  | refl => exact hr
  | tail _ hbc ih =>
    obtain ⟨op, hop⟩ := hbc
    exact Reachable.step op ih hop

/-- How one stream record may evolve as the system takes steps: identity
and conversation are fixed, the chunk log only grows at the end, and once
the stream left the `running` status both its status and its chunk log are
frozen. -/
def streamEvolves (st st' : StreamRec) : Prop :=
  st'.id = st.id ∧ st'.conversationId = st.conversationId ∧
  (∃ t, st'.chunks = st.chunks ++ t) ∧
  (st.status ≠ .running → st'.status = st.status ∧ st'.chunks = st.chunks)

/-- Evolution is reflexive. -/
theorem streamEvolves_refl (st : StreamRec) : streamEvolves st st :=
  ⟨rfl, rfl, ⟨[], by simp⟩, fun _ => ⟨rfl, rfl⟩⟩

/-- Evolution is transitive. -/
theorem streamEvolves_trans (a b c : StreamRec) (hab : streamEvolves a b)
    (hbc : streamEvolves b c) : streamEvolves a c := by
  obtain ⟨hid1, hcid1, ⟨t1, ht1⟩, hfr1⟩ := hab
  obtain ⟨hid2, hcid2, ⟨t2, ht2⟩, hfr2⟩ := hbc
  refine ⟨hid2.trans hid1, hcid2.trans hcid1,
    ⟨t1 ++ t2, by rw [ht2, ht1, List.append_assoc]⟩, ?_⟩
  intro hna
  obtain ⟨hs1, hc1⟩ := hfr1 hna
  obtain ⟨hs2, hc2⟩ := hfr2 (by rw [hs1]; exact hna)
  exact ⟨hs2.trans hs1, hc2.trans hc1⟩

/-- Helper: `find?` by id commutes with an in-place, id-preserving
update keyed on some (possibly different) id. -/
theorem find?_map_ite (l : List StreamRec) (q sid : Nat)
    (f : StreamRec → StreamRec) (hid : ∀ st, (f st).id = st.id)
    (st : StreamRec)
    (h : l.find? (fun x => decide (x.id = q)) = some st) :
    (l.map (fun x => if x.id = sid then f x else x)).find?
        (fun x => decide (x.id = q)) =
      some (if st.id = sid then f st else st) := by
  induction l with
  | nil => simp at h
  | cons a l ih =>
    have hga : ((if a.id = sid then f a else a) : StreamRec).id = a.id := by
      by_cases hs : a.id = sid <;> simp [hs, hid]
    by_cases ha : a.id = q
    · rw [List.find?_cons_of_pos _ (by simp [ha])] at h
      obtain rfl := Option.some.inj h
      rw [List.map_cons,
        List.find?_cons_of_pos _ (by simp only [hga]; simp [ha])]
    · rw [List.find?_cons_of_neg _ (by simp [ha])] at h
      rw [List.map_cons,
        List.find?_cons_of_neg _ (by simp only [hga]; simp [ha])]
      exact ih h

/-- Helper: looking up a stream after an id-preserving in-place update. -/
theorem findStream_updateStream (s : SystemState) (q sid : Nat)
    (f : StreamRec → StreamRec) (hid : ∀ st, (f st).id = st.id)
    (st : StreamRec) (h : findStream s q = some st) :
    findStream (updateStream s sid f) q =
      some (if st.id = sid then f st else st) := by
  show (s.streams.map (fun x => if x.id = sid then f x else x)).find?
      (fun x => decide (x.id = q)) = _
  exact find?_map_ite s.streams q sid f hid st h

/-- Helper: appending streams on the right does not change an existing
lookup result. -/
theorem find?_append_left (l₁ l₂ : List StreamRec) (p : StreamRec → Bool)
    (st : StreamRec) (h : l₁.find? p = some st) :
    (l₁ ++ l₂).find? p = some st := by
  rw [List.find?_append, h]
  rfl

/-- Helper: the result of a lookup carries the looked-up id. -/
theorem findStream_id (s : SystemState) (sid : Nat) (st : StreamRec)
    (h : findStream s sid = some st) : st.id = sid := by
  have := List.find?_some h
  simpa using this

/-- Helper: the result of a lookup is a registered stream. -/
theorem findStream_mem (s : SystemState) (sid : Nat) (st : StreamRec)
    (h : findStream s sid = some st) : st ∈ s.streams :=
  List.mem_of_find?_eq_some h

/-- One accepted step evolves every registered stream according to
`streamEvolves`, keeping it registered. -/
theorem applyOp_evolves (s : SystemState) (op : Op) (s' : SystemState)
    (h : applyOp s op = some s') (q : Nat) (st : StreamRec)
    (hfind : findStream s q = some st) :
    ∃ st', findStream s' q = some st' ∧ streamEvolves st st' := by
  cases op with
  | register cid =>
    simp only [applyOp] at h
    split at h
    · rename_i s1 n1 hreg
      obtain rfl := Option.some.inj h
      unfold registerStream at hreg
      by_cases hR : hasRunning s cid
      · simp [hR] at hreg
      · simp only [hR, if_neg, Bool.false_eq_true, not_false_iff] at hreg
        cases hreg
        exact ⟨st, find?_append_left _ _ _ st hfind, streamEvolves_refl st⟩
    · exact absurd h (by simp)
  | append sid k payload =>
    replace h : appendChunk s sid k payload = some s' := h
    unfold appendChunk at h
    split at h
    · exact absurd h (by simp)
    · rename_i st0 hfind0
      split at h
      · rename_i hguard
        obtain rfl := Option.some.inj h
        refine ⟨_, findStream_updateStream s q sid _ (by intro x; rfl) st hfind, ?_⟩
        by_cases hq : st.id = sid
        · have hqq : q = sid := (findStream_id s q st hfind) ▸ hq
          have hst0 : st = st0 := by
            apply Option.some.inj
            rw [← hfind, ← hfind0, hqq]
          simp only [hq, if_pos]
          refine ⟨hq.symm, rfl, ⟨_, rfl⟩, ?_⟩
          intro hna
          exact absurd (hst0 ▸ hguard.1) hna
        · simp only [hq, if_neg, not_false_iff]
          exact streamEvolves_refl st
      · exact absurd h (by simp)
  | finish sid =>
    replace h : finishStream s sid = some s' := h
    unfold finishStream at h
    split at h
    · exact absurd h (by simp)
    · rename_i st0 hfind0
      split at h
      · rename_i hguard
        obtain rfl := Option.some.inj h
        refine ⟨_, findStream_updateStream s q sid _ (by intro x; rfl) st hfind, ?_⟩
        by_cases hq : st.id = sid
        · have hqq : q = sid := (findStream_id s q st hfind) ▸ hq
          have hst0 : st = st0 := by
            apply Option.some.inj
            rw [← hfind, ← hfind0, hqq]
          simp only [hq, if_pos]
          refine ⟨hq.symm, rfl, ⟨_, rfl⟩, ?_⟩
          intro hna
          exact absurd (hst0 ▸ hguard) hna
        · simp only [hq, if_neg, not_false_iff]
          exact streamEvolves_refl st
      · exact absurd h (by simp)
  | abort sid reason =>
    replace h : abortStream s sid reason = some s' := h
    unfold abortStream at h
    split at h
    · exact absurd h (by simp)
    · rename_i st0 hfind0
      split at h
      · rename_i hguard
        obtain rfl := Option.some.inj h
        refine ⟨_, findStream_updateStream s q sid _ (by intro x; rfl) st hfind, ?_⟩
        by_cases hq : st.id = sid
        · have hqq : q = sid := (findStream_id s q st hfind) ▸ hq
          have hst0 : st = st0 := by
            apply Option.some.inj
            rw [← hfind, ← hfind0, hqq]
          simp only [hq, if_pos]
          refine ⟨hq.symm, rfl, ⟨_, rfl⟩, ?_⟩
          intro hna
          exact absurd (hst0 ▸ hguard) hna
        · simp only [hq, if_neg, not_false_iff]
          exact streamEvolves_refl st
      · exact absurd h (by simp)
  | evict sid upTo =>
    replace h : some (evictChunks s sid upTo) = some s' := h
    obtain rfl := Option.some.inj h
    unfold evictChunks
    refine ⟨_, findStream_updateStream s q sid _ (by intro x; rfl) st hfind, ?_⟩
    by_cases hq : st.id = sid
    · simp only [hq, if_pos]
      exact ⟨hq.symm, rfl, ⟨[], by simp⟩, fun _ => ⟨rfl, rfl⟩⟩
    · simp only [hq, if_neg, not_false_iff]
      exact streamEvolves_refl st

/-- Multi-step evolution evolves every registered stream. -/
theorem steps_evolves (s s' : SystemState) (h : Steps s s') (q : Nat)
    (st : StreamRec) (hfind : findStream s q = some st) :
    ∃ st', findStream s' q = some st' ∧ streamEvolves st st' := by
  induction h with
  | refl => exact ⟨st, hfind, streamEvolves_refl st⟩
  | tail _ hbc ih =>
    obtain ⟨st1, hfind1, hev1⟩ := ih
    obtain ⟨op, hop⟩ := hbc
    obtain ⟨st2, hfind2, hev2⟩ := applyOp_evolves _ op _ hop q st1 hfind1
    exact ⟨st2, hfind2, streamEvolves_trans _ _ _ hev1 hev2⟩

/-- Helper: with pairwise-distinct ids, any registered stream is found
under its own id. -/
theorem find?_id_of_nodup (l : List StreamRec)
    (hnd : (l.map StreamRec.id).Nodup) (st : StreamRec) (hmem : st ∈ l) :
    l.find? (fun x => decide (x.id = st.id)) = some st := by
  induction l with
  | nil => simp at hmem
  | cons a l ih =>
    rw [List.map_cons, List.nodup_cons] at hnd
    rcases List.mem_cons.1 hmem with rfl | hmem'
    · rw [List.find?_cons_of_pos _ (by simp)]
    · have ha : ¬a.id = st.id := by
        intro hcon
        exact hnd.1 (hcon ▸ List.mem_map.2 ⟨st, hmem', rfl⟩)
      rw [List.find?_cons_of_neg _ (by simp [ha])]
      exact ih hnd.2 hmem'

/-- Helper: the latest stream of a conversation is registered and belongs
to that conversation. -/
theorem latestStreamFor_mem (s : SystemState) (cid : Nat) (st : StreamRec)
    (h : latestStreamFor s cid = some st) :
    st ∈ s.streams ∧ st.conversationId = cid := by
  have hmem := mem_of_getLast?_eq_some h
  have hf := List.mem_filter.1 hmem
  exact ⟨hf.1, by simpa using hf.2⟩

/-- Helper: under the invariant, the latest stream of a conversation is
found under its own id. -/
theorem findStream_of_latest (s : SystemState) (cid : Nat) (st : StreamRec)
    (hnd : (s.streams.map StreamRec.id).Nodup)
    (h : latestStreamFor s cid = some st) :
    findStream s st.id = some st :=
  find?_id_of_nodup s.streams hnd st (latestStreamFor_mem s cid st h).1

/-- Helper: keeping only the numbers at least `m` out of `0, ..., n-1`. -/
theorem filter_range_ge (m n : Nat) :
    (List.range n).filter (fun x => decide (m ≤ x)) =
      List.range' m (n - m) := by
  induction n with
  | zero => simp
  | succ n ih =>
    rw [List.range_succ, List.filter_append, ih]
    by_cases h : m ≤ n
    · have h1 : n + 1 - m = (n - m) + 1 := by omega
      have h2 : m + (n - m) = n := by omega
      rw [h1, List.range'_1_concat, h2]
      simp [h]
    · have h1 : n + 1 - m = 0 := by omega
      have h2 : n - m = 0 := by omega
      rw [h1, h2]
      simp [h]

/-- Helper: on a well-formed chunk log, replaying from sequence `m`
delivers exactly the sequence numbers `m, m+1, ..., length-1`. -/
theorem replayChunks_map_seq (st : StreamRec) (m : Nat)
    (hwf : seqWellFormed st) :
    (replayChunks st m).map Chunk.sequence =
      List.range' m (st.chunks.length - m) := by
  have h := List.filter_map (p := fun x => decide (m ≤ x))
    Chunk.sequence st.chunks
  rw [hwf, filter_range_ge] at h
  exact h.symm

/-- Helper: an id-preserving in-place update does not change the id
listing. -/
theorem updateStream_map_id (s : SystemState) (sid : Nat)
    (f : StreamRec → StreamRec) (hid : ∀ st, (f st).id = st.id) :
    (updateStream s sid f).streams.map StreamRec.id =
      s.streams.map StreamRec.id := by
  show (s.streams.map (fun x => if x.id = sid then f x else x)).map
      StreamRec.id = _
  rw [List.map_map]
  refine List.map_congr_left (fun a _ => ?_)
  by_cases h : a.id = sid <;> simp [h, hid]

/-- Helper: the full delivery of a consumer that replays the stored chunks
from `fromSeq` on and then stays attached while the system steps from `s`
to `s'` carries exactly the sequence numbers `fromSeq, ..., length'-1`,
with no gap and no duplicate at the replay-to-live handoff. -/
theorem delivered_map_seq (s s' : SystemState) (sid fromSeq : Nat)
    (st : StreamRec) (hr : Reachable s) (hsteps : Steps s s')
    (hfind : findStream s sid = some st)
    (hfrom : fromSeq ≤ st.chunks.length) :
    ∃ st', findStream s' sid = some st' ∧
      st.chunks.length ≤ st'.chunks.length ∧
      (replayChunks st fromSeq ++
          st'.chunks.drop st.chunks.length).map Chunk.sequence =
        List.range' fromSeq (st'.chunks.length - fromSeq) := by
  have hinv := reachable_inv s hr
  have hinv' := reachable_inv s' (steps_reachable s s' hr hsteps)
  obtain ⟨st', hfind', hev⟩ := steps_evolves s s' hsteps sid st hfind
  obtain ⟨t, ht⟩ := hev.2.2.1
  have hwf : seqWellFormed st :=
    hinv.2.2.1 st (findStream_mem s sid st hfind)
  have hwf' : seqWellFormed st' :=
    hinv'.2.2.1 st' (findStream_mem s' sid st' hfind')
  have hlen : st'.chunks.length = st.chunks.length + t.length := by
    rw [ht, List.length_append]
  have hdrop : st'.chunks.drop st.chunks.length = t := by
    rw [ht, List.drop_left]
  have htseq : t.map Chunk.sequence =
      List.range' st.chunks.length t.length := by
    have hsplit : List.range' 0 st.chunks.length ++
        List.range' st.chunks.length t.length =
        List.range' 0 st'.chunks.length := by
      have := List.range'_append 0 st.chunks.length t.length 1
      simpa [hlen, Nat.add_comm] using this
    have hcat : List.range' 0 st.chunks.length ++ t.map Chunk.sequence =
        List.range' 0 st.chunks.length ++
          List.range' st.chunks.length t.length := by
      rw [hsplit, ← List.range_eq_range', ← List.range_eq_range', ← hwf', ht,
        List.map_append, hwf]
    exact List.append_cancel_left hcat
  refine ⟨st', hfind', by omega, ?_⟩
  rw [List.map_append, hdrop, htseq, replayChunks_map_seq st fromSeq hwf]
  have hj : fromSeq + 1 * (st.chunks.length - fromSeq) =
      st.chunks.length := by omega
  have := List.range'_append fromSeq (st.chunks.length - fromSeq) t.length 1
  rw [one_mul] at this hj
  rw [hj] at this
  rw [this]
  congr 1
  omega

/-- A concrete execution used to exercise the theorems: conversation 7
registers stream 0. -/
def exState1 : SystemState :=
  { streams := [{ id := 0, conversationId := 7, status := .running,
                  chunks := [], evictedBefore := 0 }],
    nextStreamId := 1, now := 1 }

/-- The producer has written one text chunk. -/
def exState2 : SystemState :=
  { streams := [{ id := 0, conversationId := 7, status := .running,
                  chunks := [mkChunk 0 0 .textDelta "Hel" 1],
                  evictedBefore := 0 }],
    nextStreamId := 1, now := 2 }

/-- The producer has written two text chunks. -/
def exState3 : SystemState :=
  { streams := [{ id := 0, conversationId := 7, status := .running,
                  chunks := [mkChunk 0 0 .textDelta "Hel" 1,
                             mkChunk 0 1 .textDelta "lo" 2],
                  evictedBefore := 0 }],
    nextStreamId := 1, now := 3 }

/-- The producer has written three text chunks. -/
def exState4 : SystemState :=
  { streams := [{ id := 0, conversationId := 7, status := .running,
                  chunks := [mkChunk 0 0 .textDelta "Hel" 1,
                             mkChunk 0 1 .textDelta "lo" 2,
                             mkChunk 0 2 .textDelta "!" 3],
                  evictedBefore := 0 }],
    nextStreamId := 1, now := 4 }

/-- The producer has written four text chunks. -/
def exState5 : SystemState :=
  { streams := [{ id := 0, conversationId := 7, status := .running,
                  chunks := [mkChunk 0 0 .textDelta "Hel" 1,
                             mkChunk 0 1 .textDelta "lo" 2,
                             mkChunk 0 2 .textDelta "!" 3,
                             mkChunk 0 3 .textDelta "x" 4],
                  evictedBefore := 0 }],
    nextStreamId := 1, now := 5 }

/-- The stream has completed with a terminal finish chunk. -/
def exState6 : SystemState :=
  { streams := [{ id := 0, conversationId := 7, status := .completed,
                  chunks := [mkChunk 0 0 .textDelta "Hel" 1,
                             mkChunk 0 1 .textDelta "lo" 2,
                             mkChunk 0 2 .textDelta "!" 3,
                             mkChunk 0 3 .textDelta "x" 4,
                             mkChunk 0 4 .finish "" 5],
                  evictedBefore := 0 }],
    nextStreamId := 1, now := 6 }

/-- The producer failed after one chunk: aborted with a terminal error
chunk. -/
def exAborted : SystemState :=
  { streams := [{ id := 0, conversationId := 7, status := .aborted,
                  chunks := [mkChunk 0 0 .textDelta "Hel" 1,
                             mkChunk 0 1 .error "boom" 2],
                  evictedBefore := 0 }],
    nextStreamId := 1, now := 3 }

/-- The aborted stream after a retention eviction step. -/
def exAbortedEvicted : SystemState :=
  { streams := [{ id := 0, conversationId := 7, status := .aborted,
                  chunks := [mkChunk 0 0 .textDelta "Hel" 1,
                             mkChunk 0 1 .error "boom" 2],
                  evictedBefore := 1 }],
    nextStreamId := 1, now := 4 }

/-- The stream completed right after its first chunk. -/
def exCompletedShort : SystemState :=
  { streams := [{ id := 0, conversationId := 7, status := .completed,
                  chunks := [mkChunk 0 0 .textDelta "Hel" 1,
                             mkChunk 0 1 .finish "" 2],
                  evictedBefore := 0 }],
    nextStreamId := 1, now := 3 }

/-- The running stream with three chunks after the store evicted sequence
numbers below 2. -/
def exEvicted : SystemState :=
  { streams := [{ id := 0, conversationId := 7, status := .running,
                  chunks := [mkChunk 0 0 .textDelta "Hel" 1,
                             mkChunk 0 1 .textDelta "lo" 2,
                             mkChunk 0 2 .textDelta "!" 3],
                  evictedBefore := 2 }],
    nextStreamId := 1, now := 5 }

/-- Concrete reachability: registration. -/
theorem exState1_reachable : Reachable exState1 :=
  Reachable.step (Op.register 7) Reachable.init rfl

/-- Concrete reachability: first chunk. -/
theorem exState2_reachable : Reachable exState2 :=
  Reachable.step (Op.append 0 .textDelta "Hel") exState1_reachable rfl

/-- Concrete reachability: second chunk. -/
theorem exState3_reachable : Reachable exState3 :=
  Reachable.step (Op.append 0 .textDelta "lo") exState2_reachable rfl

/-- Concrete reachability: third chunk. -/
theorem exState4_reachable : Reachable exState4 :=
  Reachable.step (Op.append 0 .textDelta "!") exState3_reachable rfl

/-- Concrete reachability: aborting after the first chunk. -/
theorem exAborted_reachable : Reachable exAborted :=
  Reachable.step (Op.abort 0 "boom") exState2_reachable rfl

/-- Concrete steps: two more chunks get appended. -/
theorem steps_exState2_exState4 : Steps exState2 exState4 :=
  Relation.ReflTransGen.tail
    (Relation.ReflTransGen.single ⟨Op.append 0 .textDelta "lo", rfl⟩)
    ⟨Op.append 0 .textDelta "!", rfl⟩

/-- Concrete steps: one more chunk and then completion. -/
theorem steps_exState4_exState6 : Steps exState4 exState6 :=
  Relation.ReflTransGen.tail
    (Relation.ReflTransGen.single ⟨Op.append 0 .textDelta "x", rfl⟩)
    ⟨Op.finish 0, rfl⟩

/-- Concrete steps: eviction after the abort. -/
theorem steps_exAborted_exAbortedEvicted : Steps exAborted exAbortedEvicted :=
  Relation.ReflTransGen.single ⟨Op.evict 0 1, rfl⟩

/-- C2: in every reachable state at most one Stream per conversation has
status `running`; `registerStream` fails with a `ConflictError` (and hence
creates no Stream) whenever a Stream of the conversation is already
running, and otherwise succeeds, recording exactly one new running Stream
under the next fresh id. -/
theorem register_conflict_and_uniqueness (s : SystemState)
    (hr : Reachable s) (cid : Nat) :
    (s.streams.filter (runningFor cid)).length ≤ 1 ∧
    (hasRunning s cid = true →
      registerStream s cid = .error .conflictError) ∧
    (hasRunning s cid = false →
      registerStream s cid =
        .ok ({ streams := s.streams ++
                 [{ id := s.nextStreamId, conversationId := cid,
                    status := .running, chunks := [], evictedBefore := 0 }],
               nextStreamId := s.nextStreamId + 1,
               now := s.now + 1 }, s.nextStreamId)) := by
  refine ⟨(reachable_inv s hr).2.2.2.2 cid, ?_, ?_⟩
  · intro h
    simp [registerStream, h]
  · intro h
    simp [registerStream, h]

/-- Witness for C2 at a concrete reachable state whose conversation 7 has
a running stream, so a second registration is rejected. -/
theorem register_conflict_and_uniqueness_witness :
    (exState1.streams.filter (runningFor 7)).length ≤ 1 ∧
    (hasRunning exState1 7 = true →
      registerStream exState1 7 = .error .conflictError) ∧
    (hasRunning exState1 7 = false →
      registerStream exState1 7 =
        .ok ({ streams := exState1.streams ++
                 [{ id := exState1.nextStreamId, conversationId := 7,
                    status := .running, chunks := [], evictedBefore := 0 }],
               nextStreamId := exState1.nextStreamId + 1,
               now := exState1.now + 1 }, exState1.nextStreamId)) :=
  register_conflict_and_uniqueness exState1 exState1_reachable 7

/-- C4: once a terminal chunk is in a Stream's log in a reachable state,
the Stream's status is `completed` or `aborted`, and in every later state
the Stream's chunk log and status are unchanged — no further chunk is ever
appended and the Stream is never observed as `running` again. -/
theorem terminal_chunk_freezes_stream (s s' : SystemState) (sid : Nat)
    (st : StreamRec) (c : Chunk) (hr : Reachable s) (hsteps : Steps s s')
    (hfind : findStream s sid = some st)
    (hc : c ∈ st.chunks) (hterm : c.kind.isTerminal = true) :
    (st.status = .completed ∨ st.status = .aborted) ∧
    ∃ st', findStream s' sid = some st' ∧ st'.status = st.status ∧
      st'.chunks = st.chunks := by
  have hinv := reachable_inv s hr
  have hmem := findStream_mem s sid st hfind
  have hstatus : ¬st.status = .running := by
    intro hrunning
    have hh := hinv.2.2.2.1 st hmem hrunning c hc
    rw [hterm] at hh
    simp at hh
  refine ⟨?_, ?_⟩
  · cases hst : st.status with
    | running => exact absurd hst hstatus
    | completed => exact Or.inl rfl
    | aborted => exact Or.inr rfl
  · obtain ⟨st', hfind', hev⟩ := steps_evolves s s' hsteps sid st hfind
    obtain ⟨hs1, hc1⟩ := hev.2.2.2 hstatus
    exact ⟨st', hfind', hs1, hc1⟩

/-- The single stream record of `exAborted`. -/
def exAbortedRec : StreamRec :=
  { id := 0, conversationId := 7, status := .aborted,
    chunks := [mkChunk 0 0 .textDelta "Hel" 1,
               mkChunk 0 1 .error "boom" 2],
    evictedBefore := 0 }

/-- Witness for C4 at the concrete aborted stream: its terminal error
chunk pins the status, and one further (eviction) step changes neither
the log nor the status. -/
theorem terminal_chunk_freezes_stream_witness :
    (exAbortedRec.status = .completed ∨ exAbortedRec.status = .aborted) ∧
    ∃ st', findStream exAbortedEvicted 0 = some st' ∧
      st'.status = exAbortedRec.status ∧
      st'.chunks = exAbortedRec.chunks :=
  terminal_chunk_freezes_stream exAborted exAbortedEvicted 0
    exAbortedRec (mkChunk 0 1 .error "boom" 2)
    exAborted_reachable steps_exAborted_exAbortedEvicted rfl
    (List.Mem.tail _ (List.Mem.head _)) rfl

/-- C3: any consumer of a Stream — attached live at any point or resumed —
reads chunks whose sequence numbers are exactly `fromSeq, fromSeq+1, ...`
up to the current end of the log: strictly increasing, with no gap, no
skipped number and no repeated number. -/
theorem consumer_reads_strictly_increasing_gapless (s s' : SystemState)
    (sid fromSeq : Nat) (st : StreamRec) (hr : Reachable s)
    (hsteps : Steps s s') (hfind : findStream s sid = some st)
    (hfrom : fromSeq ≤ st.chunks.length) :
    ∃ st', findStream s' sid = some st' ∧
      (consumerDelivered s s' sid fromSeq).map Chunk.sequence =
        List.range' fromSeq (st'.chunks.length - fromSeq) ∧
      List.Pairwise (fun a b => a < b)
        ((consumerDelivered s s' sid fromSeq).map Chunk.sequence) := by
  obtain ⟨st', hfind', hle, hmap⟩ :=
    delivered_map_seq s s' sid fromSeq st hr hsteps hfind hfrom
  have hcd : consumerDelivered s s' sid fromSeq =
      replayChunks st fromSeq ++ st'.chunks.drop st.chunks.length := by
    unfold consumerDelivered
    rw [hfind, hfind']
  refine ⟨st', hfind', ?_, ?_⟩
  · rw [hcd]
    exact hmap
  · rw [hcd, hmap]
    exact List.pairwise_lt_range' fromSeq _

/-- Witness for C3: a consumer attached from the start at the one-chunk
state and staying attached through two appends reads sequence numbers
0, 1, 2. -/
theorem consumer_reads_strictly_increasing_gapless_witness :
    ∃ st', findStream exState4 0 = some st' ∧
      (consumerDelivered exState2 exState4 0 0).map Chunk.sequence =
        List.range' 0 (st'.chunks.length - 0) ∧
      List.Pairwise (fun a b => a < b)
        ((consumerDelivered exState2 exState4 0 0).map Chunk.sequence) :=
  consumer_reads_strictly_increasing_gapless exState2 exState4 0 0
    { id := 0, conversationId := 7, status := .running,
      chunks := [mkChunk 0 0 .textDelta "Hel" 1], evictedBefore := 0 }
    exState2_reachable steps_exState2_exState4 rfl (by decide)

/-- C1: resuming the running Stream of a conversation with
`lastSeenSequence = k` (or with it unspecified) delivers no chunk with
sequence number below the resume point `k+1` (resp. 0), omits no stored
chunk at or past the resume point, replays exactly the stored chunks from
the resume point, and the handoff from replayed chunks to the live chunks
appended while the system steps to any later state is seamless: the
consumer sees exactly the sequence numbers from the resume point up to the
end of the log, with no gap and no duplicate. -/
theorem resume_exact_replay_seamless (s s' : SystemState) (cid : Nat)
    (lastSeen : Option Nat) (st : StreamRec) (replayed : List Chunk)
    (hr : Reachable s) (hsteps : Steps s s')
    (hlatest : latestStreamFor s cid = some st)
    (hrunning : st.status = .running)
    (hk : resumeFromSeq lastSeen ≤ st.chunks.length)
    (hres : resume s cid lastSeen = .ok replayed) :
    (∀ c ∈ replayed, resumeFromSeq lastSeen ≤ c.sequence) ∧
    (∀ c ∈ st.chunks, resumeFromSeq lastSeen ≤ c.sequence → c ∈ replayed) ∧
    replayed = replayChunks st (resumeFromSeq lastSeen) ∧
    ∃ st', findStream s' st.id = some st' ∧
      (replayed ++ st'.chunks.drop st.chunks.length).map Chunk.sequence =
        List.range' (resumeFromSeq lastSeen)
          (st'.chunks.length - resumeFromSeq lastSeen) := by
  have hinv := reachable_inv s hr
  have hrep : replayed = replayChunks st (resumeFromSeq lastSeen) := by
    simp only [resume, hlatest] at hres
    simp only [hrunning] at hres
    simp only [reduceCtorEq, or_self, if_false] at hres
    by_cases hev : resumeFromSeq lastSeen < st.evictedBefore
    · simp [hev] at hres
    · simp only [hev, if_false] at hres
      exact (Except.ok.inj hres).symm
  have hfind : findStream s st.id = some st :=
    findStream_of_latest s cid st hinv.2.1 hlatest
  obtain ⟨st', hfind', hle, hmap⟩ :=
    delivered_map_seq s s' st.id (resumeFromSeq lastSeen) st hr hsteps
      hfind hk
  refine ⟨?_, ?_, hrep, st', hfind', by rw [hrep]; exact hmap⟩
  · intro c hc
    rw [hrep] at hc
    have hcf := (List.mem_filter.1 hc).2
    simpa using hcf
  · intro c hc hcs
    rw [hrep]
    exact List.mem_filter.2 ⟨hc, by simpa using hcs⟩

/-- The single stream record of `exState4`. -/
def exState4Rec : StreamRec :=
  { id := 0, conversationId := 7, status := .running,
    chunks := [mkChunk 0 0 .textDelta "Hel" 1,
               mkChunk 0 1 .textDelta "lo" 2,
               mkChunk 0 2 .textDelta "!" 3],
    evictedBefore := 0 }

/-- Witness for C1: resuming conversation 7 with `lastSeenSequence = 1`
at the three-chunk state replays exactly the chunk with sequence 2, and
after one more append plus completion the consumer has seen sequence
numbers 2, 3, 4. -/
theorem resume_exact_replay_seamless_witness :
    (∀ c ∈ [mkChunk 0 2 .textDelta "!" 3], resumeFromSeq (some 1) ≤
      c.sequence) ∧
    (∀ c ∈ exState4Rec.chunks, resumeFromSeq (some 1) ≤ c.sequence →
      c ∈ [mkChunk 0 2 .textDelta "!" 3]) ∧
    [mkChunk 0 2 .textDelta "!" 3] =
      replayChunks exState4Rec (resumeFromSeq (some 1)) ∧
    ∃ st', findStream exState6 exState4Rec.id = some st' ∧
      ([mkChunk 0 2 .textDelta "!" 3] ++
          st'.chunks.drop exState4Rec.chunks.length).map Chunk.sequence =
        List.range' (resumeFromSeq (some 1))
          (st'.chunks.length - resumeFromSeq (some 1)) :=
  resume_exact_replay_seamless exState4 exState6 7 (some 1) exState4Rec
    [mkChunk 0 2 .textDelta "!" 3] exState4_reachable
    steps_exState4_exState6 rfl rfl (by decide) rfl

/-- C5: when the producer fails after writing chunks 0..n on a running
Stream, aborting appends exactly one terminal error chunk with sequence
number n+1 immediately after chunk n, marks the Stream `aborted`, and
starts no automatic retry: the registered stream ids and the id counter
are unchanged. -/
theorem producer_failure_deterministic_end (s : SystemState) (sid n : Nat)
    (st : StreamRec) (reason : String)
    (hfind : findStream s sid = some st) (hrunning : st.status = .running)
    (hn : st.chunks.length = n + 1) :
    ∃ s', abortStream s sid reason = some s' ∧
      findStream s' sid = some
        { st with status := .aborted,
                  chunks := st.chunks ++
                    [mkChunk sid (n + 1) .error reason s.now] } ∧
      (mkChunk sid (n + 1) .error reason s.now).kind.isTerminal = true ∧
      s'.streams.map StreamRec.id = s.streams.map StreamRec.id ∧
      s'.nextStreamId = s.nextStreamId := by
  refine ⟨updateStream s sid (fun st' =>
    { st' with status := .aborted,
               chunks := st'.chunks ++
                 [mkChunk sid st'.chunks.length .error reason s.now] }),
    ?_, ?_, rfl, ?_, rfl⟩
  · unfold abortStream
    rw [hfind]
    simp [hrunning]
  · have hid := findStream_id s sid st hfind
    have hh := findStream_updateStream s sid sid (fun st' =>
      { st' with status := .aborted,
                 chunks := st'.chunks ++
                   [mkChunk sid st'.chunks.length .error reason s.now] })
      (by intro x; rfl) st hfind
    rw [if_pos hid] at hh
    rw [hh]
    simp [hn]
  · exact updateStream_map_id s sid _ (by intro x; rfl)

/-- The single stream record of `exState2`. -/
def exState2Rec : StreamRec :=
  { id := 0, conversationId := 7, status := .running,
    chunks := [mkChunk 0 0 .textDelta "Hel" 1], evictedBefore := 0 }

/-- Witness for C5: aborting the one-chunk running stream appends the
terminal error chunk with sequence number 1 and changes nothing else. -/
theorem producer_failure_deterministic_end_witness :
    ∃ s', abortStream exState2 0 "boom" = some s' ∧
      findStream s' 0 = some
        { exState2Rec with status := .aborted,
                           chunks := exState2Rec.chunks ++
                             [mkChunk 0 (0 + 1) .error "boom"
                               exState2.now] } ∧
      (mkChunk 0 (0 + 1) .error "boom" exState2.now).kind.isTerminal =
        true ∧
      s'.streams.map StreamRec.id = exState2.streams.map StreamRec.id ∧
      s'.nextStreamId = exState2.nextStreamId :=
  producer_failure_deterministic_end exState2 0 0 exState2Rec "boom"
    rfl rfl rfl

/-- C6: a resume request on a running Stream whose requested range has
been evicted by the store's retention fails with a `GoneError` — it never
silently returns an empty or partial stream. -/
theorem resume_retention_gone (s : SystemState) (cid : Nat)
    (lastSeen : Option Nat) (st : StreamRec)
    (hlatest : latestStreamFor s cid = some st)
    (hrunning : st.status = .running)
    (hev : resumeFromSeq lastSeen < st.evictedBefore) :
    resume s cid lastSeen = .error .goneError := by
  simp only [resume, hlatest]
  simp [hrunning, hev]

/-- The single stream record of `exEvicted`. -/
def exEvictedRec : StreamRec :=
  { id := 0, conversationId := 7, status := .running,
    chunks := [mkChunk 0 0 .textDelta "Hel" 1,
               mkChunk 0 1 .textDelta "lo" 2,
               mkChunk 0 2 .textDelta "!" 3],
    evictedBefore := 2 }

/-- Witness for C6: after eviction up to sequence 2, resuming with
`lastSeenSequence = 0` fails with a `GoneError`. -/
theorem resume_retention_gone_witness :
    resume exEvicted 7 (some 0) = .error .goneError :=
  resume_retention_gone exEvicted 7 (some 0) exEvictedRec rfl rfl
    (by decide)

/-- C7: resuming a conversation for which no Stream was ever registered,
or whose latest Stream is already `completed` or `aborted`, returns the
empty/terminal stream and raises no error. -/
theorem resume_no_stream_or_terminal_empty (s : SystemState) (cid : Nat)
    (lastSeen : Option Nat)
    (h : latestStreamFor s cid = none ∨
      ∃ st, latestStreamFor s cid = some st ∧
        (st.status = .completed ∨ st.status = .aborted)) :
    resume s cid lastSeen = .ok [] := by
  rcases h with h | ⟨st, hst, hterm⟩
  · simp [resume, h]
  · simp only [resume, hst]
    rw [if_pos hterm]

/-- The single stream record of `exCompletedShort`. -/
def exCompletedShortRec : StreamRec :=
  { id := 0, conversationId := 7, status := .completed,
    chunks := [mkChunk 0 0 .textDelta "Hel" 1,
               mkChunk 0 1 .finish "" 2],
    evictedBefore := 0 }

/-- Witness for C7: resuming a conversation with no stream at all, and
resuming a conversation whose latest stream completed, both return the
empty stream without an error. -/
theorem resume_no_stream_or_terminal_empty_witness :
    resume initState 5 none = .ok [] ∧
    resume exCompletedShort 7 (some 0) = .ok [] :=
  ⟨resume_no_stream_or_terminal_empty initState 5 none (Or.inl rfl),
   resume_no_stream_or_terminal_empty exCompletedShort 7 (some 0)
     (Or.inr ⟨exCompletedShortRec, rfl, Or.inl rfl⟩)⟩

/-- Modelled from the spec: one ordered part of a Message
(text/tool-call/tool-result/reasoning/file, §3).  The persistence layer is
not under `src/`. -/
inductive MessagePart
  | text (content : String)
  | toolCall (name payload : String)
  | toolResult (name payload : String)
  | reasoning (content : String)
  | file (url : String)
  deriving DecidableEq

/-- Modelled from the spec: the two on-disk Message shapes coexisting
during the migration window (§3, §9): the legacy single-content shape (the
deprecated `Message` table with a JSON `content` field) and the new
multi-part shape (`Message_v2` with `parts` and `attachments`).  The
schema and query code are not under `src/`. -/
inductive DBMessage
  | legacy (id conversationId : Nat) (role : String) (content : String)
      (createdAt : Nat)
  | v2 (id conversationId : Nat) (role : String) (parts : List MessagePart)
      (attachments : List String) (createdAt : Nat)
  deriving DecidableEq

/-- Whether an on-disk message is in the legacy single-content shape. -/
def DBMessage.isLegacy : DBMessage → Bool
  | .legacy .. => true
  | .v2 .. => false

/-- Modelled from the spec: the in-memory Message representation used
beyond the persistence boundary — always multi-part. -/
structure UIMessage where
  id : Nat
  conversationId : Nat
  role : String
  parts : List MessagePart
  attachments : List String
  createdAt : Nat
  deriving DecidableEq

/-- Modelled from the spec: the single normalization function at the
persistence boundary through which both on-disk variants are folded (§9):
a legacy single-content row becomes one text part, a multi-part row is
taken as is. -/
def normalizeDBMessage : DBMessage → UIMessage
  | .legacy i cid role content t =>
    { id := i, conversationId := cid, role := role,
      parts := [MessagePart.text content], attachments := [],
      createdAt := t }
  | .v2 i cid role parts atts t =>
    { id := i, conversationId := cid, role := role, parts := parts,
      attachments := atts, createdAt := t }

/-- Modelled from the spec: the write path of the persistence boundary,
which "only the new shape is written" — every persisted Message is
produced in the multi-part shape. -/
def saveMessage (m : UIMessage) : DBMessage :=
  .v2 m.id m.conversationId m.role m.parts m.attachments m.createdAt

/-- C8: the read path accepts both on-disk Message shapes and folds them
through the single normalization function (a legacy row normalizes to the
multi-part form with its content as one text part, a multi-part row
normalizes to itself), while the write path only ever produces the new
multi-part shape — no operation writes a legacy-shaped Message — and
normalization inverts it. -/
theorem message_shapes_single_normalization_new_writes :
    (∀ m : UIMessage, (saveMessage m).isLegacy = false) ∧
    (∀ m : UIMessage, normalizeDBMessage (saveMessage m) = m) ∧
    (∀ i cid role content t,
      normalizeDBMessage (DBMessage.legacy i cid role content t) =
        { id := i, conversationId := cid, role := role,
          parts := [MessagePart.text content], attachments := [],
          createdAt := t }) ∧
    (∀ i cid role parts atts t,
      normalizeDBMessage (DBMessage.v2 i cid role parts atts t) =
        { id := i, conversationId := cid, role := role, parts := parts,
          attachments := atts, createdAt := t }) :=
  ⟨fun _ => rfl, fun _ => rfl, fun _ _ _ _ _ => rfl,
   fun _ _ _ _ _ _ => rfl⟩

end AIChat
